import Mathlib

/-!
Verification of the gesture-to-matrix mathematics of
`src/composables/useSvgPanZoom.ts`.

JavaScript numbers are modelled as real numbers.  The single fallible
operation of the core — dividing by the distance between the two initial
touch points, which in IEEE arithmetic yields Infinity or NaN when that
distance is zero — additionally gets a checked variant returning `Option`,
where `none` stands for the non-finite outcome and `some m` means every
entry of `m` is a (finite) real number.
-/

namespace SvgPanZoom

/-- The `Point` interface: `{ x: number; y: number }`. -/
@[ext]
structure Point where
  x : ℝ
  y : ℝ

/-- The six coefficients `[a, b, c, d, e, f]` of a `DOMMatrix`, representing
the affine map `(x, y) ↦ (a·x + c·y + e, b·x + d·y + f)`; `e` and `f` are the
translation components (called `tx`, `ty` in the source). -/
@[ext]
structure DOMMatrix where
  a : ℝ
  b : ℝ
  c : ℝ
  d : ℝ
  e : ℝ
  f : ℝ

/-- The `DOMMatrix.prototype.multiply` method: `m.multiply n` is the matrix
product `m * n`, the transform that applies `n` first and `m` second. -/
def DOMMatrix.multiply (m n : DOMMatrix) : DOMMatrix where
  a := m.a * n.a + m.c * n.b
  b := m.b * n.a + m.d * n.b
  c := m.a * n.c + m.c * n.d
  d := m.b * n.c + m.d * n.d
  e := m.a * n.e + m.c * n.f + m.e
  f := m.b * n.e + m.d * n.f + m.f

/-- Application of a `DOMMatrix` to a point. -/
def DOMMatrix.transformPoint (m : DOMMatrix) (p : Point) : Point where
  x := m.a * p.x + m.c * p.y + m.e
  y := m.b * p.x + m.d * p.y + m.f

/-- The `MatrixProps` interface: the two touch points at gesture start and
their current positions. -/
structure MatrixProps where
  one : Point
  two : Point
  newOne : Point
  newTwo : Point

/-- `Math.atan2 y x`, modelled as the argument of the complex number
`x + y·i` (both return the angle of `(x, y)` in `(-π, π]`, and both return
`0` at the origin). -/
noncomputable def atan2 (y x : ℝ) : ℝ :=
  Complex.arg ⟨x, y⟩

/-- `getDistance`: `Math.hypot(pointOne.x - pointTwo.x, pointOne.y - pointTwo.y)`. -/
noncomputable def getDistance (pointOne pointTwo : Point) : ℝ :=
  Real.sqrt ((pointOne.x - pointTwo.x) ^ 2 + (pointOne.y - pointTwo.y) ^ 2)

/-- `getZoomMatrix` from the source: uniform scale by the ratio of the new
and old distances, translated so the old midpoint lands on the new one. -/
noncomputable def getZoomMatrix (p : MatrixProps) : DOMMatrix :=
  let d := getDistance p.newOne p.newTwo / getDistance p.one p.two
  let cx := (p.newOne.x + p.newTwo.x) / 2
  let cy := (p.newOne.y + p.newTwo.y) / 2
  let tx := cx - d * ((p.one.x + p.two.x) / 2)
  let ty := cy - d * ((p.one.y + p.two.y) / 2)
  ⟨d, 0, 0, d, tx, ty⟩

/-- `getMatrix` from the source: rotation by the change of the angle of the
touch-point pair, uniform scale by the distance ratio, translated so the old
midpoint lands on the new one. -/
noncomputable def getMatrix (p : MatrixProps) : DOMMatrix :=
  let d := getDistance p.newOne p.newTwo / getDistance p.one p.two
  let cx := (p.newOne.x + p.newTwo.x) / 2
  let cy := (p.newOne.y + p.newTwo.y) / 2
  let atan := atan2 (p.two.y - p.one.y) (p.two.x - p.one.x)
  let newAtan := atan2 (p.newTwo.y - p.newOne.y) (p.newTwo.x - p.newOne.x)
  let c := Real.cos (newAtan - atan)
  let s := Real.sin (newAtan - atan)
  let tx := cx - d * ((p.one.x + p.two.x) / 2) * c + d * ((p.one.y + p.two.y) / 2) * s
  let ty := cy - d * ((p.one.y + p.two.y) / 2) * c - d * ((p.one.x + p.two.x) / 2) * s
  ⟨d * c, d * s, -(d * s), d * c, tx, ty⟩

/-- Checked variant of `getZoomMatrix`: in IEEE arithmetic the division by a
zero `getDistance one two` yields Infinity or NaN and hence a non-finite
matrix; that failure is modelled as `none`.  A `some` result has only
(finite) real entries. -/
noncomputable def getZoomMatrixChecked (p : MatrixProps) : Option DOMMatrix :=
  if getDistance p.one p.two = 0 then none else some (getZoomMatrix p)

/-- Checked variant of `getMatrix`, with the same reading of `none` as in
`getZoomMatrixChecked`. -/
noncomputable def getMatrixChecked (p : MatrixProps) : Option DOMMatrix :=
  if getDistance p.one p.two = 0 then none else some (getMatrix p)

/-- The fields of a `TouchList` member that the handler reads. -/
structure Touch where
  pageX : ℝ
  pageY : ℝ

/-- JavaScript `v || 0` applied to a possibly-undefined number: `undefined`
and the falsy number `0` give `0`; every other number is returned unchanged. -/
noncomputable def jsOrZero : Option ℝ → ℝ
  | none => 0
  | some v => if v = 0 then 0 else v

/-- `getTouchCoords`: `{ x: touch?.pageX || 0, y: touch?.pageY || 0 }`, total
on a possibly-missing touch. -/
noncomputable def getTouchCoords (touch : Option Touch) : Point where
  x := jsOrZero (touch.map Touch.pageX)
  y := jsOrZero (touch.map Touch.pageY)

/-- The `initialState` captured once by `onDoubleTouch` when the gesture
starts: the two touch coordinates and the current matrix of the group. -/
structure GestureState where
  touchOne : Point
  touchTwo : Point
  matrix : DOMMatrix

/-- The `matrixParams` object built by `onTouchMove` inside `onDoubleTouch`:
old points from the immutable `initialState`, new points read from the
current event's touch list. -/
noncomputable def mkMatrixParams (init : GestureState) (touches : List Touch) : MatrixProps where
  one := init.touchOne
  two := init.touchTwo
  newOne := getTouchCoords (touches.get? 0)
  newTwo := getTouchCoords (touches.get? 1)

/-- The body of `onTouchMove` inside `onDoubleTouch`: the value written to
`matrix.value` for one move event. -/
noncomputable def onTouchMove (isRotatable : Bool) (init : GestureState)
    (touches : List Touch) : DOMMatrix :=
  let params := mkMatrixParams init touches
  let newMatrix := if isRotatable then getMatrix params else getZoomMatrix params
  newMatrix.multiply init.matrix

/-- One gesture processing a sequence of touch-move events: `initialState`
stays fixed while every move overwrites the `matrix` ref with the value
computed by `onTouchMove`. -/
noncomputable def runGesture (isRotatable : Bool) (init : GestureState)
    (cur : Option DOMMatrix) (moves : List (List Touch)) : Option DOMMatrix :=
  moves.foldl (fun _ touches => some (onTouchMove isRotatable init touches)) cur

/-- The `angle` computed ref: `atan2(b, a) * 180 / π` when a matrix has been
set, and `0` otherwise. -/
noncomputable def angle (matrix : Option DOMMatrix) : ℝ :=
  match matrix with
  | some m => atan2 m.b m.a * (180 / Real.pi)
  | none => 0

/-- The `scale` computed ref: `√(a·a + c·c)` when a matrix has been set, and
`0` otherwise. -/
noncomputable def scale (matrix : Option DOMMatrix) : ℝ :=
  match matrix with
  | some m => Real.sqrt (m.a * m.a + m.c * m.c)
  | none => 0

/-- The midpoint of two points. -/
noncomputable def midPt (p q : Point) : Point where
  x := (p.x + q.x) / 2
  y := (p.y + q.y) / 2

/-- The identity `DOMMatrix` `[1, 0, 0, 1, 0, 0]`. -/
def idMatrix : DOMMatrix :=
  ⟨1, 0, 0, 1, 0, 0⟩

/-! Helper lemmas. -/

theorem getDistance_nonneg (p q : Point) : 0 ≤ getDistance p q :=
  Real.sqrt_nonneg _

theorem getDistance_eq_abs (p q : Point) :
    getDistance p q = Complex.abs ⟨p.x - q.x, p.y - q.y⟩ := by
  rw [Complex.abs_apply, Complex.normSq_mk, getDistance]
  ring_nf

theorem getDistance_self (p : Point) : getDistance p p = 0 := by
  simp [getDistance]

theorem getDistance_pos_of_ne {p q : Point} (h : p ≠ q) : 0 < getDistance p q := by
  rw [getDistance, Real.sqrt_pos]
  by_contra hc
  push_neg at hc
  have h1 : (p.x - q.x) ^ 2 + (p.y - q.y) ^ 2 = 0 := le_antisymm hc (by positivity)
  have hx : p.x = q.x := by nlinarith [sq_nonneg (p.x - q.x), sq_nonneg (p.y - q.y)]
  have hy : p.y = q.y := by nlinarith [sq_nonneg (p.x - q.x), sq_nonneg (p.y - q.y)]
  exact h (by cases p; cases q; simp_all)

theorem getDistance_comm_sub (p q : Point) :
    Real.sqrt ((q.x - p.x) ^ 2 + (q.y - p.y) ^ 2) = getDistance p q := by
  simp only [getDistance]
  congr 1
  ring

/-- Scaling both points by a common nonnegative factor and translating them by
a common vector scales their distance by that factor. -/
theorem getDistance_scale_translate (k tx ty : ℝ) (hk : 0 ≤ k) (p q : Point) :
    getDistance ⟨k * p.x + tx, k * p.y + ty⟩ ⟨k * q.x + tx, k * q.y + ty⟩ =
      k * getDistance p q := by
  simp only [getDistance]
  rw [show (k * p.x + tx - (k * q.x + tx)) ^ 2 + (k * p.y + ty - (k * q.y + ty)) ^ 2
      = k ^ 2 * ((p.x - q.x) ^ 2 + (p.y - q.y) ^ 2) by ring]
  rw [Real.sqrt_mul (sq_nonneg k), Real.sqrt_sq hk]

/-- Core geometric fact behind `getMatrix`: scaling the vector `(vx, vy)` by
the ratio of the norms and rotating it by the difference of the arguments
yields exactly the vector `(wx, wy)`. -/
theorem rotScale_vector (vx vy wx wy : ℝ)
    (hv : Real.sqrt (vx ^ 2 + vy ^ 2) ≠ 0) :
    Real.sqrt (wx ^ 2 + wy ^ 2) / Real.sqrt (vx ^ 2 + vy ^ 2) *
        Real.cos (Complex.arg ⟨wx, wy⟩ - Complex.arg ⟨vx, vy⟩) * vx -
      Real.sqrt (wx ^ 2 + wy ^ 2) / Real.sqrt (vx ^ 2 + vy ^ 2) *
        Real.sin (Complex.arg ⟨wx, wy⟩ - Complex.arg ⟨vx, vy⟩) * vy = wx ∧
    Real.sqrt (wx ^ 2 + wy ^ 2) / Real.sqrt (vx ^ 2 + vy ^ 2) *
        Real.sin (Complex.arg ⟨wx, wy⟩ - Complex.arg ⟨vx, vy⟩) * vx +
      Real.sqrt (wx ^ 2 + wy ^ 2) / Real.sqrt (vx ^ 2 + vy ^ 2) *
        Real.cos (Complex.arg ⟨wx, wy⟩ - Complex.arg ⟨vx, vy⟩) * vy = wy := by
  have habsv : Complex.abs ⟨vx, vy⟩ = Real.sqrt (vx ^ 2 + vy ^ 2) := by
    rw [Complex.abs_apply, Complex.normSq_mk]
    congr 1
    ring
  have habsw : Complex.abs ⟨wx, wy⟩ = Real.sqrt (wx ^ 2 + wy ^ 2) := by
    rw [Complex.abs_apply, Complex.normSq_mk]
    congr 1
    ring
  have hvne : (⟨vx, vy⟩ : ℂ) ≠ 0 := by
    intro h0
    apply hv
    rw [← habsv, h0, map_zero]
  have key : (↑(Complex.abs ⟨wx, wy⟩ / Complex.abs ⟨vx, vy⟩) : ℂ) *
      Complex.exp (↑(Complex.arg ⟨wx, wy⟩ - Complex.arg ⟨vx, vy⟩) * Complex.I) *
        ⟨vx, vy⟩ = ⟨wx, wy⟩ := by
    have h1 := Complex.abs_mul_exp_arg_mul_I (⟨vx, vy⟩ : ℂ)
    have h2 := Complex.abs_mul_exp_arg_mul_I (⟨wx, wy⟩ : ℂ)
    have hexp : Complex.exp (↑(Complex.arg ⟨wx, wy⟩ - Complex.arg ⟨vx, vy⟩) * Complex.I) =
        Complex.exp (↑(Complex.arg (⟨wx, wy⟩ : ℂ)) * Complex.I) /
          Complex.exp (↑(Complex.arg (⟨vx, vy⟩ : ℂ)) * Complex.I) := by
      rw [← Complex.exp_sub]
      congr 1
      push_cast
      ring
    rw [hexp]
    push_cast
    calc (↑(Complex.abs ⟨wx, wy⟩) / ↑(Complex.abs ⟨vx, vy⟩) : ℂ) *
        (Complex.exp (↑(Complex.arg (⟨wx, wy⟩ : ℂ)) * Complex.I) /
          Complex.exp (↑(Complex.arg (⟨vx, vy⟩ : ℂ)) * Complex.I)) * ⟨vx, vy⟩
        = ↑(Complex.abs ⟨wx, wy⟩) * Complex.exp (↑(Complex.arg (⟨wx, wy⟩ : ℂ)) * Complex.I) *
            ⟨vx, vy⟩ /
            (↑(Complex.abs ⟨vx, vy⟩) * Complex.exp (↑(Complex.arg (⟨vx, vy⟩ : ℂ)) * Complex.I)) := by
          ring
      _ = (⟨wx, wy⟩ : ℂ) * ⟨vx, vy⟩ / ⟨vx, vy⟩ := by rw [h1, h2]
      _ = ⟨wx, wy⟩ := by rw [mul_div_assoc, div_self hvne, mul_one]
  rw [habsv, habsw] at key
  have hre := congrArg Complex.re key
  have him := congrArg Complex.im key
  simp only [Complex.mul_re, Complex.mul_im, Complex.ofReal_re, Complex.ofReal_im,
    Complex.exp_ofReal_mul_I_re, Complex.exp_ofReal_mul_I_im, zero_mul, mul_zero,
    sub_zero, add_zero, zero_add] at hre him
  constructor
  · linear_combination hre
  · linear_combination him

theorem point01_ne : (⟨0, 0⟩ : Point) ≠ ⟨1, 0⟩ := by
  intro h
  have hx := congrArg Point.x h
  norm_num at hx

theorem dist01_pos : 0 < getDistance ⟨0, 0⟩ ⟨1, 0⟩ :=
  getDistance_pos_of_ne point01_ne

/-- C1: for non-degenerate start points, `getZoomMatrix` returns the matrix
`[d, 0, 0, d, tx, ty]` with `d = dist(newOne, newTwo) / dist(one, two)`, and
applying it to `one` and `two` gives points whose midpoint is the midpoint of
`(newOne, newTwo)` and whose distance is `dist(newOne, newTwo)`. -/
theorem getZoomMatrix_correct (p : MatrixProps) (h : 0 < getDistance p.one p.two) :
    (getZoomMatrix p).a = getDistance p.newOne p.newTwo / getDistance p.one p.two ∧
    (getZoomMatrix p).b = 0 ∧
    (getZoomMatrix p).c = 0 ∧
    (getZoomMatrix p).d = getDistance p.newOne p.newTwo / getDistance p.one p.two ∧
    midPt ((getZoomMatrix p).transformPoint p.one) ((getZoomMatrix p).transformPoint p.two) =
      midPt p.newOne p.newTwo ∧
    getDistance ((getZoomMatrix p).transformPoint p.one) ((getZoomMatrix p).transformPoint p.two) =
      getDistance p.newOne p.newTwo := by
  have hDnn : 0 ≤ getDistance p.newOne p.newTwo / getDistance p.one p.two :=
    div_nonneg (getDistance_nonneg _ _) h.le
  refine ⟨rfl, rfl, rfl, rfl, ?_, ?_⟩
  · apply Point.ext <;> simp only [getZoomMatrix, DOMMatrix.transformPoint, midPt] <;> ring
  · have ht1 : (getZoomMatrix p).transformPoint p.one =
        ⟨(getZoomMatrix p).a * p.one.x + (getZoomMatrix p).e,
         (getZoomMatrix p).a * p.one.y + (getZoomMatrix p).f⟩ := by
      apply Point.ext <;> simp only [getZoomMatrix, DOMMatrix.transformPoint] <;> ring
    have ht2 : (getZoomMatrix p).transformPoint p.two =
        ⟨(getZoomMatrix p).a * p.two.x + (getZoomMatrix p).e,
         (getZoomMatrix p).a * p.two.y + (getZoomMatrix p).f⟩ := by
      apply Point.ext <;> simp only [getZoomMatrix, DOMMatrix.transformPoint] <;> ring
    rw [ht1, ht2,
      getDistance_scale_translate ((getZoomMatrix p).a) ((getZoomMatrix p).e)
        ((getZoomMatrix p).f) hDnn p.one p.two]
    show getDistance p.newOne p.newTwo / getDistance p.one p.two * getDistance p.one p.two = _
    exact div_mul_cancel₀ _ h.ne'

theorem getZoomMatrix_correct_witness :
    0 < getDistance ⟨0, 0⟩ ⟨1, 0⟩ ∧
    getDistance
        ((getZoomMatrix ⟨⟨0, 0⟩, ⟨1, 0⟩, ⟨0, 0⟩, ⟨2, 0⟩⟩).transformPoint ⟨0, 0⟩)
        ((getZoomMatrix ⟨⟨0, 0⟩, ⟨1, 0⟩, ⟨0, 0⟩, ⟨2, 0⟩⟩).transformPoint ⟨1, 0⟩) =
      getDistance ⟨0, 0⟩ ⟨2, 0⟩ :=
  ⟨dist01_pos,
    (getZoomMatrix_correct ⟨⟨0, 0⟩, ⟨1, 0⟩, ⟨0, 0⟩, ⟨2, 0⟩⟩ dist01_pos).2.2.2.2.2⟩

/-- C2: for non-degenerate start points, `getMatrix` returns a matrix whose
linear part is `[d·cosΔθ, d·sinΔθ, −d·sinΔθ, d·cosΔθ]` with
`d = dist(newOne, newTwo) / dist(one, two)` and
`Δθ = atan2(newTwo − newOne) − atan2(two − one)`, and which maps the midpoint
of `(one, two)` to the midpoint of `(newOne, newTwo)`. -/
theorem getMatrix_correct (p : MatrixProps) (h : 0 < getDistance p.one p.two) :
    (getMatrix p).a = getDistance p.newOne p.newTwo / getDistance p.one p.two *
      Real.cos (atan2 (p.newTwo.y - p.newOne.y) (p.newTwo.x - p.newOne.x) -
        atan2 (p.two.y - p.one.y) (p.two.x - p.one.x)) ∧
    (getMatrix p).b = getDistance p.newOne p.newTwo / getDistance p.one p.two *
      Real.sin (atan2 (p.newTwo.y - p.newOne.y) (p.newTwo.x - p.newOne.x) -
        atan2 (p.two.y - p.one.y) (p.two.x - p.one.x)) ∧
    (getMatrix p).c = -(getDistance p.newOne p.newTwo / getDistance p.one p.two *
      Real.sin (atan2 (p.newTwo.y - p.newOne.y) (p.newTwo.x - p.newOne.x) -
        atan2 (p.two.y - p.one.y) (p.two.x - p.one.x))) ∧
    (getMatrix p).d = getDistance p.newOne p.newTwo / getDistance p.one p.two *
      Real.cos (atan2 (p.newTwo.y - p.newOne.y) (p.newTwo.x - p.newOne.x) -
        atan2 (p.two.y - p.one.y) (p.two.x - p.one.x)) ∧
    (getMatrix p).transformPoint (midPt p.one p.two) = midPt p.newOne p.newTwo := by
  refine ⟨rfl, rfl, rfl, rfl, ?_⟩
  apply Point.ext <;> simp only [getMatrix, DOMMatrix.transformPoint, midPt] <;> ring

theorem getMatrix_correct_witness :
    0 < getDistance ⟨0, 0⟩ ⟨1, 0⟩ ∧
    (getMatrix ⟨⟨0, 0⟩, ⟨1, 0⟩, ⟨0, 0⟩, ⟨2, 0⟩⟩).transformPoint
        (midPt ⟨0, 0⟩ ⟨1, 0⟩) = midPt ⟨0, 0⟩ ⟨2, 0⟩ :=
  ⟨dist01_pos,
    (getMatrix_correct ⟨⟨0, 0⟩, ⟨1, 0⟩, ⟨0, 0⟩, ⟨2, 0⟩⟩ dist01_pos).2.2.2.2⟩

/-- C9: for non-degenerate start points, `getMatrix` maps `one` exactly to
`newOne` and `two` exactly to `newTwo`: its linear part is the unique
rotation-plus-uniform-scale taking `two − one` to `newTwo − newOne`. -/
theorem getMatrix_maps_endpoints (p : MatrixProps) (h : 0 < getDistance p.one p.two) :
    (getMatrix p).transformPoint p.one = p.newOne ∧
    (getMatrix p).transformPoint p.two = p.newTwo := by
  have hv : Real.sqrt ((p.two.x - p.one.x) ^ 2 + (p.two.y - p.one.y) ^ 2) ≠ 0 := by
    rw [getDistance_comm_sub]
    exact h.ne'
  obtain ⟨k1, k2⟩ := rotScale_vector (p.two.x - p.one.x) (p.two.y - p.one.y)
    (p.newTwo.x - p.newOne.x) (p.newTwo.y - p.newOne.y) hv
  rw [getDistance_comm_sub, getDistance_comm_sub] at k1 k2
  constructor
  · apply Point.ext
    · simp only [getMatrix, DOMMatrix.transformPoint, atan2]
      linear_combination (-(1 : ℝ) / 2) * k1
    · simp only [getMatrix, DOMMatrix.transformPoint, atan2]
      linear_combination (-(1 : ℝ) / 2) * k2
  · apply Point.ext
    · simp only [getMatrix, DOMMatrix.transformPoint, atan2]
      linear_combination ((1 : ℝ) / 2) * k1
    · simp only [getMatrix, DOMMatrix.transformPoint, atan2]
      linear_combination ((1 : ℝ) / 2) * k2

theorem getMatrix_maps_endpoints_witness :
    0 < getDistance ⟨0, 0⟩ ⟨1, 0⟩ ∧
    ((getMatrix ⟨⟨0, 0⟩, ⟨1, 0⟩, ⟨0, 0⟩, ⟨2, 0⟩⟩).transformPoint ⟨0, 0⟩ = ⟨0, 0⟩ ∧
     (getMatrix ⟨⟨0, 0⟩, ⟨1, 0⟩, ⟨0, 0⟩, ⟨2, 0⟩⟩).transformPoint ⟨1, 0⟩ = ⟨2, 0⟩) :=
  ⟨dist01_pos, getMatrix_maps_endpoints ⟨⟨0, 0⟩, ⟨1, 0⟩, ⟨0, 0⟩, ⟨2, 0⟩⟩ dist01_pos⟩

/-- C5: when the rotation delta `Δθ` is zero, `getMatrix` produces the same
linear part as `getZoomMatrix` on the same non-degenerate input. -/
theorem getMatrix_reduces_to_zoom (p : MatrixProps) (h : 0 < getDistance p.one p.two)
    (hθ : atan2 (p.newTwo.y - p.newOne.y) (p.newTwo.x - p.newOne.x) -
      atan2 (p.two.y - p.one.y) (p.two.x - p.one.x) = 0) :
    (getMatrix p).a = (getZoomMatrix p).a ∧
    (getMatrix p).b = (getZoomMatrix p).b ∧
    (getMatrix p).c = (getZoomMatrix p).c ∧
    (getMatrix p).d = (getZoomMatrix p).d := by
  refine ⟨?_, ?_, ?_, ?_⟩ <;>
    simp only [getMatrix, getZoomMatrix] <;>
    rw [hθ] <;>
    simp [Real.cos_zero, Real.sin_zero]

theorem getMatrix_reduces_to_zoom_witness :
    (0 < getDistance ⟨0, 0⟩ ⟨1, 0⟩ ∧
      atan2 ((⟨1, 0⟩ : Point).y - (⟨0, 0⟩ : Point).y)
          ((⟨1, 0⟩ : Point).x - (⟨0, 0⟩ : Point).x) -
        atan2 ((⟨1, 0⟩ : Point).y - (⟨0, 0⟩ : Point).y)
          ((⟨1, 0⟩ : Point).x - (⟨0, 0⟩ : Point).x) = 0) ∧
    (getMatrix ⟨⟨0, 0⟩, ⟨1, 0⟩, ⟨0, 0⟩, ⟨1, 0⟩⟩).a =
      (getZoomMatrix ⟨⟨0, 0⟩, ⟨1, 0⟩, ⟨0, 0⟩, ⟨1, 0⟩⟩).a :=
  ⟨⟨dist01_pos, sub_self _⟩,
    (getMatrix_reduces_to_zoom ⟨⟨0, 0⟩, ⟨1, 0⟩, ⟨0, 0⟩, ⟨1, 0⟩⟩ dist01_pos (sub_self _)).1⟩

/-- C6: with `newOne = one` and `newTwo = two` and the two points distinct,
both `getZoomMatrix` and `getMatrix` return the identity matrix
`[1, 0, 0, 1, 0, 0]`. -/
theorem noMotion_identity (one two : Point) (hne : one ≠ two) :
    getZoomMatrix ⟨one, two, one, two⟩ = idMatrix ∧
    getMatrix ⟨one, two, one, two⟩ = idMatrix := by
  have hd : getDistance one two ≠ 0 := (getDistance_pos_of_ne hne).ne'
  constructor
  · apply DOMMatrix.ext <;>
      simp [getZoomMatrix, idMatrix, div_self hd]
  · apply DOMMatrix.ext <;>
      simp [getMatrix, idMatrix, div_self hd, sub_self, Real.cos_zero, Real.sin_zero]

theorem noMotion_identity_witness :
    (⟨0, 0⟩ : Point) ≠ ⟨1, 0⟩ ∧
    getZoomMatrix ⟨⟨0, 0⟩, ⟨1, 0⟩, ⟨0, 0⟩, ⟨1, 0⟩⟩ = idMatrix ∧
    getMatrix ⟨⟨0, 0⟩, ⟨1, 0⟩, ⟨0, 0⟩, ⟨1, 0⟩⟩ = idMatrix :=
  ⟨point01_ne, noMotion_identity ⟨0, 0⟩ ⟨1, 0⟩ point01_ne⟩

theorem dist_0_20_eval : getDistance ⟨0, 0⟩ ⟨20, 0⟩ = 20 := by
  simp only [getDistance]
  rw [show ((0 : ℝ) - 20) ^ 2 + ((0 : ℝ) - 0) ^ 2 = 20 ^ 2 by norm_num]
  exact Real.sqrt_sq (by norm_num)

theorem dist_0_10_eval : getDistance ⟨0, 0⟩ ⟨10, 0⟩ = 10 := by
  simp only [getDistance]
  rw [show ((0 : ℝ) - 10) ^ 2 + ((0 : ℝ) - 0) ^ 2 = 10 ^ 2 by norm_num]
  exact Real.sqrt_sq (by norm_num)

theorem getZoomMatrix_scenario_eval :
    getZoomMatrix ⟨⟨0, 0⟩, ⟨10, 0⟩, ⟨0, 0⟩, ⟨20, 0⟩⟩ = ⟨2, 0, 0, 2, 0, 0⟩ := by
  apply DOMMatrix.ext <;>
    simp [getZoomMatrix, dist_0_20_eval, dist_0_10_eval] <;> norm_num

/-- C7 counterexample: on the scenario `one = (0,0)`, `two = (10,0)`,
`newOne = (0,0)`, `newTwo = (20,0)` the matrix returned by `getZoomMatrix` is
not `[2, 0, 0, 2, -5, 0]`: its translation entry `e` is `0`, not `-5`. -/
theorem getZoomMatrix_scenario_ne :
    getZoomMatrix ⟨⟨0, 0⟩, ⟨10, 0⟩, ⟨0, 0⟩, ⟨20, 0⟩⟩ ≠ ⟨2, 0, 0, 2, -5, 0⟩ := by
  intro hEq
  rw [getZoomMatrix_scenario_eval] at hEq
  have he := congrArg DOMMatrix.e hEq
  norm_num at he

/-- C7 (amended): on the scenario `one = (0,0)`, `two = (10,0)`,
`newOne = (0,0)`, `newTwo = (20,0)`, `getZoomMatrix` returns
`[2, 0, 0, 2, 0, 0]` — scale factor `d = 2` and translation `tx = 10 − 2·5 = 0`
— a matrix that scales every distance by exactly `2` and maps the midpoint
`(5, 0)` to `(10, 0)`. -/
theorem getZoomMatrix_scenario :
    getZoomMatrix ⟨⟨0, 0⟩, ⟨10, 0⟩, ⟨0, 0⟩, ⟨20, 0⟩⟩ = ⟨2, 0, 0, 2, 0, 0⟩ ∧
    (∀ p q : Point,
      getDistance ((getZoomMatrix ⟨⟨0, 0⟩, ⟨10, 0⟩, ⟨0, 0⟩, ⟨20, 0⟩⟩).transformPoint p)
          ((getZoomMatrix ⟨⟨0, 0⟩, ⟨10, 0⟩, ⟨0, 0⟩, ⟨20, 0⟩⟩).transformPoint q) =
        2 * getDistance p q) ∧
    (getZoomMatrix ⟨⟨0, 0⟩, ⟨10, 0⟩, ⟨0, 0⟩, ⟨20, 0⟩⟩).transformPoint ⟨5, 0⟩ = ⟨10, 0⟩ := by
  refine ⟨getZoomMatrix_scenario_eval, ?_, ?_⟩
  · intro p q
    rw [getZoomMatrix_scenario_eval]
    have ht1 : (DOMMatrix.mk 2 0 0 2 0 0).transformPoint p = ⟨2 * p.x + 0, 2 * p.y + 0⟩ := by
      apply Point.ext <;> simp [DOMMatrix.transformPoint]
    have ht2 : (DOMMatrix.mk 2 0 0 2 0 0).transformPoint q = ⟨2 * q.x + 0, 2 * q.y + 0⟩ := by
      apply Point.ext <;> simp [DOMMatrix.transformPoint]
    rw [ht1, ht2, getDistance_scale_translate 2 0 0 (by norm_num) p q]
  · rw [getZoomMatrix_scenario_eval]
    apply Point.ext <;> simp [DOMMatrix.transformPoint] <;> norm_num

/-- C8: the `angle` accessor equals `atan2(b, a) · 180/π` on a set matrix and
`0` on none; the `scale` accessor equals `√(a² + c²)` on a set matrix and `0`
on none; on the identity matrix they return `0` and `1` respectively. -/
theorem angle_scale_spec :
    (∀ m : DOMMatrix, angle (some m) = atan2 m.b m.a * (180 / Real.pi)) ∧
    angle none = 0 ∧
    (∀ m : DOMMatrix, scale (some m) = Real.sqrt (m.a * m.a + m.c * m.c)) ∧
    scale none = 0 ∧
    angle (some idMatrix) = 0 ∧
    scale (some idMatrix) = 1 := by
  refine ⟨fun m => rfl, rfl, fun m => rfl, rfl, ?_, ?_⟩
  · show atan2 0 1 * (180 / Real.pi) = 0
    have h1 : atan2 0 1 = 0 := by
      show Complex.arg ⟨1, 0⟩ = 0
      have : (⟨1, 0⟩ : ℂ) = 1 := rfl
      rw [this, Complex.arg_one]
    rw [h1, zero_mul]
  · show Real.sqrt (1 * 1 + 0 * 0) = 1
    rw [show (1 : ℝ) * 1 + 0 * 0 = 1 by norm_num, Real.sqrt_one]

/-- C3: after any sequence of touch-move events of one gesture, the current
transform equals `incremental.multiply(base)` where `base` is the matrix
captured once at gesture start (the result depends only on the last move, not
on the intermediate ones or on the previous value of the ref), and the
incremental matrix is `getMatrix` when `isRotatable` is true and
`getZoomMatrix` otherwise. -/
theorem runGesture_composes_on_base (isRot : Bool) (init : GestureState)
    (cur : Option DOMMatrix) (moves : List (List Touch)) (mv : List Touch) :
    runGesture isRot init cur (moves ++ [mv]) =
      some ((if isRot then getMatrix (mkMatrixParams init mv)
             else getZoomMatrix (mkMatrixParams init mv)).multiply init.matrix) := by
  simp only [runGesture, List.foldl_append, List.foldl_cons, List.foldl_nil, onTouchMove]

/-- C4: when the two start points coincide the scale computation divides by
zero — `getDistance one two = 0` and the checked computations signal the
non-finite result with `none`; when the start points are at positive distance
the computations succeed and every entry of the returned matrices is a
(finite) real number. -/
theorem checked_matrices_division (p : MatrixProps) :
    (getDistance p.one p.two = 0 →
      getZoomMatrixChecked p = none ∧ getMatrixChecked p = none) ∧
    (0 < getDistance p.one p.two →
      getZoomMatrixChecked p = some (getZoomMatrix p) ∧
      getMatrixChecked p = some (getMatrix p)) := by
  constructor
  · intro h
    exact ⟨by simp [getZoomMatrixChecked, h], by simp [getMatrixChecked, h]⟩
  · intro h
    exact ⟨by simp [getZoomMatrixChecked, h.ne'], by simp [getMatrixChecked, h.ne']⟩

theorem checked_matrices_division_witness :
    (getZoomMatrixChecked ⟨⟨0, 0⟩, ⟨0, 0⟩, ⟨0, 0⟩, ⟨1, 0⟩⟩ = none ∧
     getMatrixChecked ⟨⟨0, 0⟩, ⟨0, 0⟩, ⟨0, 0⟩, ⟨1, 0⟩⟩ = none) ∧
    (getZoomMatrixChecked ⟨⟨0, 0⟩, ⟨1, 0⟩, ⟨0, 0⟩, ⟨2, 0⟩⟩ =
       some (getZoomMatrix ⟨⟨0, 0⟩, ⟨1, 0⟩, ⟨0, 0⟩, ⟨2, 0⟩⟩) ∧
     getMatrixChecked ⟨⟨0, 0⟩, ⟨1, 0⟩, ⟨0, 0⟩, ⟨2, 0⟩⟩ =
       some (getMatrix ⟨⟨0, 0⟩, ⟨1, 0⟩, ⟨0, 0⟩, ⟨2, 0⟩⟩)) :=
  ⟨(checked_matrices_division ⟨⟨0, 0⟩, ⟨0, 0⟩, ⟨0, 0⟩, ⟨1, 0⟩⟩).1 (getDistance_self ⟨0, 0⟩),
   (checked_matrices_division ⟨⟨0, 0⟩, ⟨1, 0⟩, ⟨0, 0⟩, ⟨2, 0⟩⟩).2 dist01_pos⟩

/-- C10: `getTouchCoords` is total — a missing touch yields the origin
`(0, 0)`, a falsy (zero) coordinate yields `0` — and a move event whose touch
list lacks a second entry makes the gesture math silently use `(0, 0)` as the
second finger's position. -/
theorem getTouchCoords_total :
    getTouchCoords none = ⟨0, 0⟩ ∧
    (∀ y : ℝ, (getTouchCoords (some ⟨0, y⟩)).x = 0) ∧
    (∀ x : ℝ, (getTouchCoords (some ⟨x, 0⟩)).y = 0) ∧
    (∀ (isRot : Bool) (init : GestureState) (t : Touch),
      onTouchMove isRot init [t] =
        (if isRot then
            getMatrix ⟨init.touchOne, init.touchTwo, getTouchCoords (some t), ⟨0, 0⟩⟩
          else
            getZoomMatrix ⟨init.touchOne, init.touchTwo, getTouchCoords (some t), ⟨0, 0⟩⟩).multiply
          init.matrix) := by
  refine ⟨rfl, ?_, ?_, ?_⟩
  · intro y
    simp [getTouchCoords, jsOrZero]
  · intro x
    simp [getTouchCoords, jsOrZero]
  · intro isRot init t
    rfl
